import Mathlib

/-!
# Verification of the rdmpass password-derivation core (`server.js`)

A shallow embedding, in Lean 4, of the entropy-to-password derivation
pipeline implemented by `server.js` of the rdmpass repository:

* `expandEntropy`    — the HMAC-SHA256 counter-mode expander
                       (`server.js`, `expandEntropy`);
* `buildCharacterSets` — the alphabet / category builder
                       (`server.js`, `buildCharacterSets`);
* `generatePassword` — the rejection sampler with the optional
                       category-coverage retry loop
                       (`server.js`, `generatePassword`).

Modelling conventions:

* JavaScript characters and bytes are modelled as `Nat` char codes
  (every character the program manipulates lies in `0x00`–`0xFF`).
* `crypto.createHmac('sha256', key).update(msg).digest()` is modelled by an
  oracle parameter `hmac : List Nat → List Nat → List Nat` (key, message ↦
  digest).  All theorems quantify over the oracle, so they hold in
  particular for the real HMAC-SHA256 function.
* Exceptions (`throw`) are modelled by `Option`: `none` is an error.
* The two unbounded loops of `generatePassword` (the rejection loop and the
  coverage retry loop) are modelled with explicit fuel: `byteFuel` bounds
  the number of byte positions a single candidate may inspect, and
  `attemptFuel` bounds the number of candidate attempts.  Divergence of the
  JavaScript loop corresponds to the fueled function returning `none` for
  every fuel value.
* `Buffer.from([i])` truncates its entry modulo 256; the model writes
  `i % 256`.
* JavaScript's `settings.length || 16` treats `0` as falsy; `length` is
  modelled as `Int` so the negative-length and zero-length behaviours of
  `Math.max(1, Math.min(length, 2048))` are captured exactly.
-/

/-- The settings record of a `/generate` request (`server.js` `settings`). -/
structure Settings where
  includeLowercase : Bool
  includeUppercase : Bool
  includeNumbers : Bool
  includeSymbols : Bool
  includeExtendedLatin : Bool
  /-- `customCharacters` as a list of char codes; the empty list models the
  empty (falsy) string. -/
  customCharacters : List Nat
  /-- Requested password length (JavaScript number; `0` is falsy). -/
  length : Int
  requireEachSelected : Bool
deriving Repr, DecidableEq

/-- `'abcdefghijklmnopqrstuvwxyz'` (`server.js` `sets.lowercase`). -/
def lowercaseSet : List Nat := (List.range 26).map (fun i => 97 + i)

/-- `'ABCDEFGHIJKLMNOPQRSTUVWXYZ'` (`server.js` `sets.uppercase`). -/
def uppercaseSet : List Nat := (List.range 26).map (fun i => 65 + i)

/-- `'0123456789'` (`server.js` `sets.numbers`). -/
def numbersSet : List Nat := (List.range 10).map (fun i => 48 + i)

/-- The 32 ASCII punctuation characters of `server.js` `sets.symbols`:
codes 33–47, 58–64, 91–96 and 123–126. -/
def symbolsSet : List Nat :=
  (List.range 15).map (fun i => 33 + i) ++
  (List.range 7).map (fun i => 58 + i) ++
  (List.range 6).map (fun i => 91 + i) ++
  (List.range 4).map (fun i => 123 + i)

/-- Printable Latin-1 supplement, codes `0xA0`–`0xFF`
(`server.js` `sets.extendedLatin`). -/
def extendedLatinSet : List Nat := (List.range 96).map (fun i => 160 + i)

/-- The concatenated alphabet `fullSet` built by `buildCharacterSets`:
category strings appended in source order, then `customCharacters`. -/
def fullAlphabet (s : Settings) : List Nat :=
  (if s.includeLowercase then lowercaseSet else []) ++
  (if s.includeUppercase then uppercaseSet else []) ++
  (if s.includeNumbers then numbersSet else []) ++
  (if s.includeSymbols then symbolsSet else []) ++
  (if s.includeExtendedLatin then extendedLatinSet else []) ++
  (if s.customCharacters ≠ [] then s.customCharacters else [])

/-- The `categories` object built by `buildCharacterSets`, as the list of
its values in insertion order (the coverage check only iterates over the
values, so key names are irrelevant).  `customCharacters` joins only when
non-empty (truthy). -/
def selectedCategories (s : Settings) : List (List Nat) :=
  (if s.includeLowercase then [lowercaseSet] else []) ++
  (if s.includeUppercase then [uppercaseSet] else []) ++
  (if s.includeNumbers then [numbersSet] else []) ++
  (if s.includeSymbols then [symbolsSet] else []) ++
  (if s.includeExtendedLatin then [extendedLatinSet] else []) ++
  (if s.customCharacters ≠ [] then [s.customCharacters] else [])

/-- `buildCharacterSets` (`server.js` lines 108–155): returns the full
alphabet and the per-category subsets, or `none` for the
`'No character categories selected'` throw when `fullSet` is empty. -/
def buildCharacterSets (s : Settings) : Option (List Nat × List (List Nat)) :=
  if fullAlphabet s = [] then none
  else some (fullAlphabet s, selectedCategories s)

/-- The single-byte counter message fed to the HMAC for block `i`:
`Buffer.from([i])` stores `i` truncated modulo 256. -/
def blockKeyMsg (i : Nat) : List Nat := [i % 256]

/-- The list of HMAC blocks computed by `expandEntropy` for a request of
`byteCount` bytes: `Math.ceil(byteCount / 32)` blocks, block `i` being
`HMAC-SHA256(entropy, Buffer.from([i]))`. -/
def expandBlocks (hmac : List Nat → List Nat → List Nat)
    (entropy : List Nat) (byteCount : Nat) : List (List Nat) :=
  (List.range ((byteCount + 31) / 32)).map (fun i => hmac entropy (blockKeyMsg i))

/-- `expandEntropy` (`server.js` lines 86–97): concatenate the blocks and
truncate to `byteCount` bytes. -/
def expandEntropy (hmac : List Nat → List Nat → List Nat)
    (entropy : List Nat) (byteCount : Nat) : List Nat :=
  (expandBlocks hmac entropy byteCount).flatten.take byteCount

/-- The rejection threshold `max = 256 - (256 % setLength)` of
`server.js` line 202. -/
def rejectLimit (m : Nat) : Nat := 256 - 256 % m

/-- The effective password length
`Math.max(1, Math.min(settings.length || 16, 2048))` of `server.js`
line 172.  `settings.length || 16` makes a length of `0` (falsy) fall back
to the default `16`. -/
def effectiveLength (len : Int) : Nat :=
  (max 1 (min (if len = 0 then 16 else len) 2048)).toNat

/-- The idealised infinite byte stream read by `generatePassword`'s
position counter `p`: positions below `neededBytes` come from the initial
`expandEntropy(entropy, neededBytes)` buffer; whenever `p` runs past the
buffer the code appends `expandEntropy(entropy, 32)` (always HMAC block 0),
so every later position reads block 0 cyclically. -/
def hmacStream (hmac : List Nat → List Nat → List Nat)
    (entropy : List Nat) (neededBytes : Nat) (p : Nat) : Nat :=
  if p < neededBytes then (expandEntropy hmac entropy neededBytes).getD p 0
  else (expandEntropy hmac entropy 32).getD ((p - neededBytes) % 32) 0

/-- One candidate pass of the inner `while (chars.length < passwordLength)`
loop of `generatePassword` (`server.js` lines 194–213), starting the byte
position counter at `p` and needing `needed` more characters.  Returns the
selected char codes together with the final byte position, or `none` when
`fuel` byte positions were inspected without completing the candidate
(the JavaScript loop would still be running). -/
def sampleChars (fullSet : List Nat) (stream : Nat → Nat) :
    Nat → Nat → Nat → Option (List Nat × Nat)
  | _, p, 0 => some ([], p)
  | 0, _, _ + 1 => none
  | fuel + 1, p, needed + 1 =>
    if rejectLimit fullSet.length ≤ stream p then
      sampleChars fullSet stream fuel (p + 1) (needed + 1)
    else
      match sampleChars fullSet stream fuel (p + 1) needed with
      | none => none
      | some (cs, q) =>
        some (fullSet.getD (stream p % fullSet.length) 0 :: cs, q)

/-- The final coverage check of `server.js` lines 217–223: every selected
category has some member among the candidate's characters.  (The source
records `present[key]` while pushing each character and reads it only
here; accumulating and re-deriving from the final `chars` agree.) -/
def coverageOk (categories : List (List Nat)) (chars : List Nat) : Bool :=
  categories.all (fun cat => chars.any (fun ch => cat.contains ch))

/-- The outer `outer: do … while (true)` retry loop of `generatePassword`
(`server.js` lines 189–226).  Each attempt restarts the byte position at
`0`, exactly as the source's `let p = 0;` inside the loop body does.
`none` means the JavaScript loop would not have finished within
`attemptFuel` attempts (or a candidate itself did not finish within
`byteFuel` inspected bytes). -/
def genLoop (fullSet : List Nat) (categories : List (List Nat))
    (stream : Nat → Nat) (requireEach : Bool)
    (passwordLength byteFuel : Nat) : Nat → Option (List Nat)
  | 0 => none
  | attempts + 1 =>
    match sampleChars fullSet stream byteFuel 0 passwordLength with
    | none => none
    | some (chars, _) =>
      if requireEach && !coverageOk categories chars then
        genLoop fullSet categories stream requireEach passwordLength byteFuel attempts
      else some chars

/-- `generatePassword` (`server.js` lines 169–228), fueled.  `none` models
either the `buildCharacterSets` throw or a run of the source that is still
looping after the given fuel. -/
def generatePassword (hmac : List Nat → List Nat → List Nat)
    (entropy : List Nat) (s : Settings)
    (byteFuel attemptFuel : Nat) : Option (List Nat) :=
  match buildCharacterSets s with
  | none => none
  | some (fullSet, categories) =>
    let passwordLength := effectiveLength s.length
    let neededBytes := passwordLength * 2
    genLoop fullSet categories (hmacStream hmac entropy neededBytes)
      s.requireEachSelected passwordLength byteFuel attemptFuel

/-- Instrumented variant of the retry loop recording, for each attempt, the
half-open interval `(start, stop)` of byte positions it consumed.  The
start is the value the source gives `p` at the top of each attempt — the
literal `0` of `let p = 0;` inside the `do` block. -/
def genLoopTrace (fullSet : List Nat) (categories : List (List Nat))
    (stream : Nat → Nat) (requireEach : Bool)
    (passwordLength byteFuel : Nat) : Nat → List (Nat × Nat)
  | 0 => []
  | attempts + 1 =>
    match sampleChars fullSet stream byteFuel 0 passwordLength with
    | none => []
    | some (chars, stop) =>
      if requireEach && !coverageOk categories chars then
        (0, stop) ::
          genLoopTrace fullSet categories stream requireEach passwordLength
            byteFuel attempts
      else [(0, stop)]

/-- The byte-position intervals consumed by the successive retry attempts
of `generatePassword`. -/
def generatePasswordTrace (hmac : List Nat → List Nat → List Nat)
    (entropy : List Nat) (s : Settings)
    (byteFuel attemptFuel : Nat) : List (Nat × Nat) :=
  match buildCharacterSets s with
  | none => []
  | some (fullSet, categories) =>
    let passwordLength := effectiveLength s.length
    let neededBytes := passwordLength * 2
    genLoopTrace fullSet categories (hmacStream hmac entropy neededBytes)
      s.requireEachSelected passwordLength byteFuel attemptFuel



/-- Divergence of the source's `do … while (true)` loop, expressed through
the fueled model: the run returns nothing no matter how much fuel it is
given, i.e. the JavaScript `generatePassword` never returns on this
input. -/
def generatePasswordDiverges (hmac : List Nat → List Nat → List Nat)
    (entropy : List Nat) (s : Settings) : Prop :=
  ∀ byteFuel attemptFuel,
    generatePassword hmac entropy s byteFuel attemptFuel = none

/-! ## Concrete oracles, seeds and settings used for evaluation -/

/-- An HMAC oracle whose every digest is 32 zero bytes. -/
def zeroHmac : List Nat → List Nat → List Nat := fun _ _ => List.replicate 32 0

/-- A second, pointwise-equal spelling of `zeroHmac`. -/
def zeroHmacAlt : List Nat → List Nat → List Nat :=
  fun _ _ => List.replicate 32 (0 + 0)

/-- An HMAC oracle whose digests alternate the bytes 0 and 26. -/
def altHmac : List Nat → List Nat → List Nat :=
  fun _ _ => (List.range 32).map (fun j => if j % 2 = 0 then 0 else 26)

/-- An HMAC oracle whose digest repeats the first message byte: it makes
blocks with different counter bytes visibly different. -/
def ctrHmac : List Nat → List Nat → List Nat :=
  fun _ msg => List.replicate 32 (msg.getD 0 0)

/-- The all-zero 32-byte seed. -/
def zeroSeed : List Nat := List.replicate 32 0

/-- Settings: length 1, lowercase and numbers enabled,
`requireEachSelected` on.  A one-character candidate can never cover both
categories, so the retry loop never succeeds. -/
def lowerNumLen1 : Settings :=
  { includeLowercase := true
    includeUppercase := false
    includeNumbers := true
    includeSymbols := false
    includeExtendedLatin := false
    customCharacters := []
    length := 1
    requireEachSelected := true }

/-- Settings: length 2, lowercase and numbers enabled,
`requireEachSelected` on. -/
def lowerNumLen2 : Settings :=
  { includeLowercase := true
    includeUppercase := false
    includeNumbers := true
    includeSymbols := false
    includeExtendedLatin := false
    customCharacters := []
    length := 2
    requireEachSelected := true }

/-- Settings: length 8, lowercase only. -/
def lowerOnlyLen8 : Settings :=
  { includeLowercase := true
    includeUppercase := false
    includeNumbers := false
    includeSymbols := false
    includeExtendedLatin := false
    customCharacters := []
    length := 8
    requireEachSelected := false }

/-- Settings: requested length 0 (falsy in `settings.length || 16`),
lowercase only. -/
def lowerOnlyLen0 : Settings :=
  { includeLowercase := true
    includeUppercase := false
    includeNumbers := false
    includeSymbols := false
    includeExtendedLatin := false
    customCharacters := []
    length := 0
    requireEachSelected := false }

/-- Settings enabling all five categories plus 67 custom characters,
giving a 257-character alphabet. -/
def allCatsPlus67 : Settings :=
  { includeLowercase := true
    includeUppercase := true
    includeNumbers := true
    includeSymbols := true
    includeExtendedLatin := true
    customCharacters := List.replicate 67 97
    length := 8
    requireEachSelected := false }

/-- Settings with every category flag off and no custom characters. -/
def noCatsSettings : Settings :=
  { includeLowercase := false
    includeUppercase := false
    includeNumbers := false
    includeSymbols := false
    includeExtendedLatin := false
    customCharacters := []
    length := 16
    requireEachSelected := false }

/-! ## Basic facts about the sampler -/

/-- `contains` on char-code lists is plain membership. -/
lemma contains_iff_mem (l : List Nat) (c : Nat) : l.contains c = true ↔ c ∈ l := by
  simp [List.contains, List.elem_iff]

/-- A `getD` at an in-range index is a member of the list. -/
lemma getD_mem (l : List Nat) (i : Nat) (h : i < l.length) : l.getD i 0 ∈ l := by
  rw [List.getD_eq_getElem l 0 h]
  exact List.getElem_mem h

/-- A completed candidate has exactly the requested number of characters. -/
lemma sampleChars_length (fullSet : List Nat) (stream : Nat → Nat) :
    ∀ fuel p needed cs q,
      sampleChars fullSet stream fuel p needed = some (cs, q) → cs.length = needed := by
  intro fuel
  induction fuel with
  | zero =>
    intro p needed cs q h
    cases needed with
    | zero =>
      simp only [sampleChars, Option.some.injEq, Prod.mk.injEq] at h
      obtain ⟨h1, -⟩ := h
      simp [← h1]
    | succ n => simp [sampleChars] at h
  | succ fuel ih =>
    intro p needed cs q h
    cases needed with
    | zero =>
      simp only [sampleChars, Option.some.injEq, Prod.mk.injEq] at h
      obtain ⟨h1, -⟩ := h
      simp [← h1]
    | succ n =>
      rw [sampleChars] at h
      split at h
      · exact ih (p + 1) (n + 1) cs q h
      · cases hrec : sampleChars fullSet stream fuel (p + 1) n with
        | none => rw [hrec] at h; simp at h
        | some r =>
          obtain ⟨cs0, q0⟩ := r
          rw [hrec] at h
          simp only [Option.some.injEq, Prod.mk.injEq] at h
          obtain ⟨hcs, -⟩ := h
          subst hcs
          simp [ih (p + 1) n cs0 q0 hrec]

/-- Every character of a completed candidate is drawn from the alphabet. -/
lemma sampleChars_mem (fullSet : List Nat) (stream : Nat → Nat)
    (hne : fullSet ≠ []) :
    ∀ fuel p needed cs q,
      sampleChars fullSet stream fuel p needed = some (cs, q) →
        ∀ c ∈ cs, c ∈ fullSet := by
  intro fuel
  induction fuel with
  | zero =>
    intro p needed cs q h
    cases needed with
    | zero =>
      simp only [sampleChars, Option.some.injEq, Prod.mk.injEq] at h
      obtain ⟨h1, -⟩ := h
      simp [← h1]
    | succ n => simp [sampleChars] at h
  | succ fuel ih =>
    intro p needed cs q h
    cases needed with
    | zero =>
      simp only [sampleChars, Option.some.injEq, Prod.mk.injEq] at h
      obtain ⟨h1, -⟩ := h
      simp [← h1]
    | succ n =>
      rw [sampleChars] at h
      split at h
      · exact ih (p + 1) (n + 1) cs q h
      · cases hrec : sampleChars fullSet stream fuel (p + 1) n with
        | none => rw [hrec] at h; simp at h
        | some r =>
          obtain ⟨cs0, q0⟩ := r
          rw [hrec] at h
          simp only [Option.some.injEq, Prod.mk.injEq] at h
          obtain ⟨hcs, -⟩ := h
          subst hcs
          intro c hc
          rcases List.mem_cons.mp hc with hc | hc
          · subst hc
            apply getD_mem
            exact Nat.mod_lt _ (List.length_pos.mpr hne)
          · exact ih (p + 1) n cs0 q0 hrec c hc

/-! ## Facts about the retry loop -/

/-- A successful run of the retry loop returns a candidate produced by
`sampleChars` from byte position `0`; when `requireEach` is set the
returned candidate passes the coverage check. -/
lemma genLoop_some (fullSet : List Nat) (categories : List (List Nat))
    (stream : Nat → Nat) (requireEach : Bool) (L byteFuel : Nat) :
    ∀ attemptFuel pw,
      genLoop fullSet categories stream requireEach L byteFuel attemptFuel = some pw →
        (∃ q, sampleChars fullSet stream byteFuel 0 L = some (pw, q)) ∧
          (requireEach = true → coverageOk categories pw = true) := by
  intro af
  induction af with
  | zero => intro pw h; simp [genLoop] at h
  | succ af ih =>
    intro pw h
    rw [genLoop] at h
    cases hs : sampleChars fullSet stream byteFuel 0 L with
    | none => rw [hs] at h; simp at h
    | some r =>
      obtain ⟨chars, q⟩ := r
      rw [hs] at h
      dsimp only at h
      by_cases hc : (requireEach && !coverageOk categories chars) = true
      · rw [if_pos hc] at h
        obtain ⟨⟨q1, hq1⟩, hcov⟩ := ih pw h
        exact ⟨⟨q1, hs ▸ hq1⟩, hcov⟩
      · rw [if_neg hc] at h
        simp only [Option.some.injEq] at h
        subst h
        refine ⟨⟨q, rfl⟩, fun hr => ?_⟩
        rw [hr] at hc
        simpa using hc

/-- If every candidate the sampler can produce from position `0` fails the
coverage check, the retry loop with `requireEach` set never returns. -/
lemma genLoop_never (fullSet : List Nat) (categories : List (List Nat))
    (stream : Nat → Nat) (L byteFuel : Nat)
    (hcov : ∀ cs q, sampleChars fullSet stream byteFuel 0 L = some (cs, q) →
      coverageOk categories cs = false) :
    ∀ attemptFuel, genLoop fullSet categories stream true L byteFuel attemptFuel = none := by
  intro af
  induction af with
  | zero => rfl
  | succ af ih =>
    rw [genLoop]
    cases hs : sampleChars fullSet stream byteFuel 0 L with
    | none => rfl
    | some r =>
      obtain ⟨cs, q⟩ := r
      simp [hcov cs q hs, ih]

/-- With an alphabet longer than 256 characters the rejection threshold is
`0`, so every byte is rejected and no character is ever selected. -/
lemma sampleChars_rejectAll (fullSet : List Nat) (stream : Nat → Nat)
    (h256 : 256 < fullSet.length) :
    ∀ fuel p needed, sampleChars fullSet stream fuel p (needed + 1) = none := by
  have hlim : rejectLimit fullSet.length = 0 := by
    have : 256 % fullSet.length = 256 := Nat.mod_eq_of_lt h256
    unfold rejectLimit
    omega
  intro fuel
  induction fuel with
  | zero => intro p n; rfl
  | succ fuel ih =>
    intro p n
    rw [sampleChars, hlim]
    simp [ih]

/-! ## Facts about the effective length -/

/-- The effective password length is always at least 1. -/
lemma effectiveLength_pos (len : Int) : 1 ≤ effectiveLength len := by
  have h : (1 : Int) ≤ max 1 (min (if len = 0 then 16 else len) 2048) := le_max_left _ _
  unfold effectiveLength
  omega

/-- Requested lengths already in `[1, 2048]` are used unchanged. -/
lemma effectiveLength_of_range (len : Int) (h1 : 1 ≤ len) (h2 : len ≤ 2048) :
    effectiveLength len = len.toNat := by
  unfold effectiveLength
  rw [if_neg (by omega), min_eq_left h2, max_eq_right h1]

/-- A requested length of `0` is falsy in `settings.length || 16` and falls
back to the default of 16 characters. -/
lemma effectiveLength_zero : effectiveLength 0 = 16 := by decide

/-- Nonzero requested lengths below 1 clamp to 1. -/
lemma effectiveLength_neg (len : Int) (h : len < 1) (h0 : len ≠ 0) :
    effectiveLength len = 1 := by
  unfold effectiveLength
  rw [if_neg h0, min_eq_left (by omega), max_eq_left (by omega)]
  rfl

/-- Requested lengths above 2048 clamp to 2048. -/
lemma effectiveLength_big (len : Int) (h : 2048 < len) :
    effectiveLength len = 2048 := by
  unfold effectiveLength
  rw [if_neg (by omega), min_eq_right (by omega), max_eq_right (by omega)]
  rfl

/-! ## Category membership -/

/-- Membership in the lowercase category, as a code range. -/
lemma mem_lowercaseSet {c : Nat} : c ∈ lowercaseSet ↔ 97 ≤ c ∧ c ≤ 122 := by
  simp only [lowercaseSet, List.mem_map, List.mem_range]
  constructor
  · rintro ⟨i, hi, rfl⟩; omega
  · rintro ⟨h1, h2⟩; exact ⟨c - 97, by omega, by omega⟩

/-- Membership in the numbers category, as a code range. -/
lemma mem_numbersSet {c : Nat} : c ∈ numbersSet ↔ 48 ≤ c ∧ c ≤ 57 := by
  simp only [numbersSet, List.mem_map, List.mem_range]
  constructor
  · rintro ⟨i, hi, rfl⟩; omega
  · rintro ⟨h1, h2⟩; exact ⟨c - 48, by omega, by omega⟩

/-- The coverage check succeeds exactly when every selected category has
a member among the candidate characters. -/
lemma coverageOk_iff (cats : List (List Nat)) (chars : List Nat) :
    coverageOk cats chars = true ↔ ∀ cat ∈ cats, ∃ ch ∈ chars, ch ∈ cat := by
  simp [coverageOk, List.all_eq_true, List.any_eq_true, contains_iff_mem]

/-- No single character covers both the lowercase and the numbers
category: a one-character candidate always fails the coverage check when
both are selected. -/
lemma coverageOk_single_lower_num (c : Nat) :
    coverageOk [lowercaseSet, numbersSet] [c] = false := by
  cases hb : coverageOk [lowercaseSet, numbersSet] [c] with
  | false => rfl
  | true =>
    exfalso
    rw [coverageOk_iff] at hb
    obtain ⟨ch1, hch1, hm1⟩ := hb lowercaseSet (by simp)
    obtain ⟨ch2, hch2, hm2⟩ := hb numbersSet (by simp)
    simp only [List.mem_singleton] at hch1 hch2
    subst hch1
    subst hch2
    rw [mem_lowercaseSet] at hm1
    rw [mem_numbersSet] at hm2
    omega

/-- If a single candidate cannot even be assembled, the retry loop
returns nothing. -/
lemma genLoop_of_sample_none (fullSet : List Nat) (categories : List (List Nat))
    (stream : Nat → Nat) (requireEach : Bool) (L byteFuel : Nat)
    (hs : sampleChars fullSet stream byteFuel 0 L = none) :
    ∀ attemptFuel,
      genLoop fullSet categories stream requireEach L byteFuel attemptFuel = none := by
  intro af
  cases af with
  | zero => rfl
  | succ af => rw [genLoop, hs]

/-- With `lowerNumLen1` (one-character password, lowercase and numbers
both selected, coverage required) the derivation never finishes: every
candidate is a single character, a single character never covers two
disjoint categories, and the retry loop repeats forever — for every HMAC
oracle, every seed and every amount of fuel. -/
lemma generatePassword_lowerNumLen1_none
    (hmac : List Nat → List Nat → List Nat) (entropy : List Nat)
    (byteFuel attemptFuel : Nat) :
    generatePassword hmac entropy lowerNumLen1 byteFuel attemptFuel = none := by
  have hbuild : buildCharacterSets lowerNumLen1 =
      some (lowercaseSet ++ numbersSet, [lowercaseSet, numbersSet]) := by decide
  rw [generatePassword, hbuild]
  dsimp only
  have hL : effectiveLength lowerNumLen1.length = 1 := by decide
  rw [hL]
  have hre : lowerNumLen1.requireEachSelected = true := rfl
  rw [hre]
  apply genLoop_never
  intro cs q hs
  have hlen := sampleChars_length _ _ _ _ _ _ _ hs
  cases cs with
  | nil => simp at hlen
  | cons c cs' =>
    cases cs' with
    | nil => exact coverageOk_single_lower_num c
    | cons c2 cs'' => simp at hlen

/-! ## The claims -/

/-- C4: the byte-to-character mapping is exact rejection sampling.  With
`m` the alphabet length, the threshold `rejectLimit m = 256 - (256 % m)`
is the largest multiple of `m` not exceeding 256 (it is divisible by `m`,
at most 256, and adding one more `m` overshoots 256); a byte
`b ≥ rejectLimit m` is discarded — the sampler moves to the next position
selecting nothing — and an accepted byte `b < rejectLimit m` selects the
alphabet character at index `b % m`. -/
theorem c4_rejection_sampling_exact (fullSet : List Nat) (stream : Nat → Nat)
    (fuel p needed : Nat) (hm : 1 ≤ fullSet.length) :
    (rejectLimit fullSet.length % fullSet.length = 0 ∧
      rejectLimit fullSet.length ≤ 256 ∧
      256 < rejectLimit fullSet.length + fullSet.length) ∧
    (rejectLimit fullSet.length ≤ stream p →
      sampleChars fullSet stream (fuel + 1) p (needed + 1) =
        sampleChars fullSet stream fuel (p + 1) (needed + 1)) ∧
    (stream p < rejectLimit fullSet.length →
      sampleChars fullSet stream (fuel + 1) p (needed + 1) =
        Option.map (fun r => (fullSet.getD (stream p % fullSet.length) 0 :: r.1, r.2))
          (sampleChars fullSet stream fuel (p + 1) needed)) := by
  refine ⟨⟨?_, ?_, ?_⟩, ?_, ?_⟩
  · have hd := Nat.div_add_mod 256 fullSet.length
    have hsub : 256 - 256 % fullSet.length =
        fullSet.length * (256 / fullSet.length) := by omega
    unfold rejectLimit
    rw [hsub, Nat.mul_mod_right]
  · unfold rejectLimit; omega
  · have := Nat.mod_lt 256 (show 0 < fullSet.length from hm)
    unfold rejectLimit
    omega
  · intro hb
    rw [sampleChars, if_pos hb]
  · intro hb
    rw [sampleChars, if_neg (not_le.mpr hb)]
    cases hrec : sampleChars fullSet stream fuel (p + 1) needed with
    | none => simp
    | some r =>
      obtain ⟨cs, q⟩ := r
      simp

/-- Witness for C4 at the concrete three-character alphabet `"abc"` and the
all-255 byte stream (rejected) and the position-index stream (accepted). -/
theorem c4_witness :
    1 ≤ ([97, 98, 99] : List Nat).length ∧
      ((rejectLimit ([97, 98, 99] : List Nat).length % ([97, 98, 99] : List Nat).length = 0 ∧
        rejectLimit ([97, 98, 99] : List Nat).length ≤ 256 ∧
        256 < rejectLimit ([97, 98, 99] : List Nat).length + ([97, 98, 99] : List Nat).length) ∧
      (rejectLimit ([97, 98, 99] : List Nat).length ≤ (fun _ => 255) 0 →
        sampleChars [97, 98, 99] (fun _ => 255) (4 + 1) 0 (0 + 1) =
          sampleChars [97, 98, 99] (fun _ => 255) 4 (0 + 1) (0 + 1)) ∧
      ((fun _ => 255) 0 < rejectLimit ([97, 98, 99] : List Nat).length →
        sampleChars [97, 98, 99] (fun _ => 255) (4 + 1) 0 (0 + 1) =
          Option.map
            (fun r => (([97, 98, 99] : List Nat).getD ((fun _ => 255) 0 % ([97, 98, 99] : List Nat).length) 0 :: r.1, r.2))
            (sampleChars [97, 98, 99] (fun _ => 255) 4 (0 + 1) 0))) :=
  ⟨by decide, c4_rejection_sampling_exact [97, 98, 99] (fun _ => 255) 4 0 0 (by decide)⟩

/-- C3: for any oracle and seed, and any settings whose alphabet is
non-empty and whose requested length lies in `[1, 2048]`, every password
`generatePassword` actually returns has exactly the requested number of
characters, each of which belongs to the alphabet built from those
settings. -/
theorem c3_length_and_alphabet (hmac : List Nat → List Nat → List Nat)
    (entropy : List Nat) (s : Settings) (byteFuel attemptFuel : Nat)
    (pw : List Nat)
    (hne : fullAlphabet s ≠ []) (h1 : 1 ≤ s.length) (h2 : s.length ≤ 2048)
    (hpw : generatePassword hmac entropy s byteFuel attemptFuel = some pw) :
    pw.length = s.length.toNat ∧ ∀ c ∈ pw, c ∈ fullAlphabet s := by
  rw [generatePassword, buildCharacterSets, if_neg hne] at hpw
  dsimp only at hpw
  obtain ⟨⟨q, hq⟩, -⟩ := genLoop_some _ _ _ _ _ _ _ _ hpw
  constructor
  · rw [← effectiveLength_of_range s.length h1 h2]
    exact sampleChars_length _ _ _ _ _ _ _ hq
  · exact sampleChars_mem _ _ hne _ _ _ _ _ hq

/-- Witness for C3: the zero oracle with lowercase-only settings of
length 8 yields the 8-character password `"aaaaaaaa"`. -/
theorem c3_witness :
    (fullAlphabet lowerOnlyLen8 ≠ [] ∧ 1 ≤ lowerOnlyLen8.length ∧
      lowerOnlyLen8.length ≤ 2048 ∧
      generatePassword zeroHmac zeroSeed lowerOnlyLen8 64 4 =
        some (List.replicate 8 97)) ∧
    ((List.replicate 8 (97 : Nat)).length = lowerOnlyLen8.length.toNat ∧
      ∀ c ∈ List.replicate 8 (97 : Nat), c ∈ fullAlphabet lowerOnlyLen8) :=
  ⟨⟨by decide, by decide, by decide, by decide⟩,
    c3_length_and_alphabet zeroHmac zeroSeed lowerOnlyLen8 64 4
      (List.replicate 8 97) (by decide) (by decide) (by decide) (by decide)⟩

/-- C5: whenever `requireEachSelected` is set, any password that
`generatePassword` actually returns contains at least one character from
each selected category — each enabled category flag, and the custom
category when `customCharacters` is non-empty; in particular, with
lowercase enabled the password contains a lowercase letter, and with
numbers enabled it contains a digit. -/
theorem c5_coverage_invariant (hmac : List Nat → List Nat → List Nat)
    (entropy : List Nat) (s : Settings) (byteFuel attemptFuel : Nat)
    (pw : List Nat)
    (hr : s.requireEachSelected = true)
    (hpw : generatePassword hmac entropy s byteFuel attemptFuel = some pw) :
    (∀ cat ∈ selectedCategories s, ∃ c ∈ pw, c ∈ cat) ∧
    (s.includeLowercase = true → ∃ c ∈ pw, c ∈ lowercaseSet) ∧
    (s.includeNumbers = true → ∃ c ∈ pw, c ∈ numbersSet) := by
  by_cases hne : fullAlphabet s = []
  · rw [generatePassword, buildCharacterSets, if_pos hne] at hpw
    simp at hpw
  · rw [generatePassword, buildCharacterSets, if_neg hne] at hpw
    dsimp only at hpw
    rw [hr] at hpw
    obtain ⟨-, hcov⟩ := genLoop_some _ _ _ _ _ _ _ _ hpw
    have hcov' := (coverageOk_iff _ _).mp (hcov rfl)
    refine ⟨hcov', ?_, ?_⟩
    · intro hl
      exact hcov' lowercaseSet (by simp [selectedCategories, hl])
    · intro hn
      exact hcov' numbersSet (by simp [selectedCategories, hn])

/-- Witness for C5: an oracle alternating the bytes 0 and 26 with
lowercase + numbers settings of length 2 and coverage required returns
`"a0"`, which contains one character of each category. -/
theorem c5_witness :
    (lowerNumLen2.requireEachSelected = true ∧
      generatePassword altHmac zeroSeed lowerNumLen2 16 2 = some [97, 48]) ∧
    ((∀ cat ∈ selectedCategories lowerNumLen2, ∃ c ∈ [97, 48], c ∈ cat) ∧
      (lowerNumLen2.includeLowercase = true → ∃ c ∈ [97, 48], c ∈ lowercaseSet) ∧
      (lowerNumLen2.includeNumbers = true → ∃ c ∈ [97, 48], c ∈ numbersSet)) :=
  ⟨⟨rfl, by decide⟩,
    c5_coverage_invariant altHmac zeroSeed lowerNumLen2 16 2 [97, 48] rfl (by decide)⟩

/-- C6: the derivation is a pure function of the seed, the settings and
the HMAC primitive's input/output behaviour: two evaluations of
`generatePassword` with pointwise-equal HMAC oracles and identical seed
and settings produce identical results, so independent derivations from
the same `(Seed, Settings)` pair are byte-identical. -/
theorem c6_determinism (h1 h2 : List Nat → List Nat → List Nat)
    (entropy : List Nat) (s : Settings) (byteFuel attemptFuel : Nat)
    (hh : ∀ key msg, h1 key msg = h2 key msg) :
    generatePassword h1 entropy s byteFuel attemptFuel =
      generatePassword h2 entropy s byteFuel attemptFuel := by
  have heq : h1 = h2 := funext fun key => funext fun msg => hh key msg
  rw [heq]

/-- Witness for C6 at two pointwise-equal spellings of the zero oracle. -/
theorem c6_witness :
    (∀ key msg, zeroHmac key msg = zeroHmacAlt key msg) ∧
      generatePassword zeroHmac zeroSeed lowerOnlyLen8 64 4 =
        generatePassword zeroHmacAlt zeroSeed lowerOnlyLen8 64 4 :=
  ⟨fun _ _ => rfl,
    c6_determinism zeroHmac zeroHmacAlt zeroSeed lowerOnlyLen8 64 4 (fun _ _ => rfl)⟩

/-- C10: with every category flag false and no custom characters the
character-set builder itself fails (the `'No character categories
selected'` throw), before any byte is sampled, and `generatePassword`
propagates the failure for every oracle, seed and fuel — it never
produces a password, in particular never an empty string. -/
theorem c10_no_categories_error (s : Settings)
    (hflags : s.includeLowercase = false ∧ s.includeUppercase = false ∧
      s.includeNumbers = false ∧ s.includeSymbols = false ∧
      s.includeExtendedLatin = false ∧ s.customCharacters = []) :
    buildCharacterSets s = none ∧
      ∀ hmac entropy byteFuel attemptFuel,
        generatePassword hmac entropy s byteFuel attemptFuel = none := by
  obtain ⟨h1, h2, h3, h4, h5, h6⟩ := hflags
  have hfa : fullAlphabet s = [] := by
    simp [fullAlphabet, h1, h2, h3, h4, h5, h6]
  have hb : buildCharacterSets s = none := by
    rw [buildCharacterSets, if_pos hfa]
  exact ⟨hb, fun hmac entropy bf af => by rw [generatePassword, hb]⟩

/-- Witness for C10 at the all-off settings record. -/
theorem c10_witness :
    (noCatsSettings.includeLowercase = false ∧
      noCatsSettings.includeUppercase = false ∧
      noCatsSettings.includeNumbers = false ∧
      noCatsSettings.includeSymbols = false ∧
      noCatsSettings.includeExtendedLatin = false ∧
      noCatsSettings.customCharacters = []) ∧
    (buildCharacterSets noCatsSettings = none ∧
      ∀ hmac entropy byteFuel attemptFuel,
        generatePassword hmac entropy noCatsSettings byteFuel attemptFuel = none) :=
  ⟨by decide, c10_no_categories_error noCatsSettings (by decide)⟩

/-- C7: when the settings produce an alphabet longer than 256 characters,
the rejection threshold `256 - (256 % setLength)` is `0`, every expanded
byte is discarded (no character is ever selected: a candidate needing at
least one character never completes, whatever the byte stream), and
`generatePassword` never terminates, for every oracle, seed and fuel. -/
theorem c7_oversized_alphabet_diverges (hmac : List Nat → List Nat → List Nat)
    (entropy : List Nat) (s : Settings) (byteFuel attemptFuel : Nat)
    (h256 : 256 < (fullAlphabet s).length) :
    rejectLimit (fullAlphabet s).length = 0 ∧
    (∀ stream fuel p needed,
      sampleChars (fullAlphabet s) stream fuel p (needed + 1) = none) ∧
    generatePassword hmac entropy s byteFuel attemptFuel = none := by
  have hlim : rejectLimit (fullAlphabet s).length = 0 := by
    have : 256 % (fullAlphabet s).length = 256 := Nat.mod_eq_of_lt h256
    unfold rejectLimit
    omega
  have hsamp := fun stream => sampleChars_rejectAll (fullAlphabet s) stream h256
  refine ⟨hlim, fun stream => hsamp stream, ?_⟩
  have hne : fullAlphabet s ≠ [] := by
    intro h
    rw [h] at h256
    simp at h256
  rw [generatePassword, buildCharacterSets, if_neg hne]
  dsimp only
  obtain ⟨L1, hL⟩ : ∃ L1, effectiveLength s.length = L1 + 1 :=
    ⟨effectiveLength s.length - 1, by have := effectiveLength_pos s.length; omega⟩
  rw [hL]
  exact genLoop_of_sample_none _ _ _ _ _ _ (hsamp _ byteFuel 0 L1) attemptFuel

set_option maxRecDepth 4000 in
/-- Witness for C7: all five categories plus 67 custom characters give a
257-character alphabet, and the derivation returns nothing. -/
theorem c7_witness :
    256 < (fullAlphabet allCatsPlus67).length ∧
      (rejectLimit (fullAlphabet allCatsPlus67).length = 0 ∧
        (∀ stream fuel p needed,
          sampleChars (fullAlphabet allCatsPlus67) stream fuel p (needed + 1) = none) ∧
        generatePassword zeroHmac zeroSeed allCatsPlus67 5 5 = none) :=
  ⟨by decide, c7_oversized_alphabet_diverges zeroHmac zeroSeed allCatsPlus67 5 5 (by decide)⟩

/-- C2 counterexample: the claim asserts the coverage retry loop is
capped and ends in a `CoverageUnsatisfiable` failure.  The code has no
cap and no such error: with one-character length and two disjoint
selected categories the loop never succeeds, and here — at the concrete
all-zero seed and zero oracle — `generatePassword` returns nothing no
matter how much fuel it is given, i.e. the source loops forever instead
of failing with an error. -/
theorem c2_counterexample :
    generatePasswordDiverges zeroHmac zeroSeed lowerNumLen1 :=
  fun byteFuel attemptFuel =>
    generatePassword_lowerNumLen1_none zeroHmac zeroSeed byteFuel attemptFuel

/-- C2 amended: the category-coverage retry loop of `generatePassword`
has no attempt or byte bound and the code defines no
`CoverageUnsatisfiable` error; for the settings `lowerNumLen1`
(`requireEachSelected` with lowercase and numbers at length 1) the loop
can never be satisfied and `generatePassword` never returns — for every
HMAC oracle, every seed, and every amount of fuel. -/
theorem c2_amended_loop_uncapped :
    ∀ (hmac : List Nat → List Nat → List Nat) (entropy : List Nat)
      (byteFuel attemptFuel : Nat),
      generatePassword hmac entropy lowerNumLen1 byteFuel attemptFuel = none :=
  fun hmac entropy byteFuel attemptFuel =>
    generatePassword_lowerNumLen1_none hmac entropy byteFuel attemptFuel

/-- C1: the source resets the read position `p` to 0 inside the retry
loop (`let p = 0;` inside the `do` body), so successive retry attempts
re-consume exactly the same byte positions instead of continuing the
counter sequence.  At the zero oracle with `lowerNumLen1`, the first two
attempts both consume exactly the byte-position interval `[0, 1)` — the
consumed position sets are identical, not pairwise disjoint. -/
theorem c1_retry_reuses_byte_positions :
    generatePasswordTrace zeroHmac zeroSeed lowerNumLen1 8 2 = [(0, 1), (0, 1)] ∧
      ¬ List.Pairwise (fun a b : Nat × Nat => a.2 ≤ b.1 ∨ b.2 ≤ a.1)
          (generatePasswordTrace zeroHmac zeroSeed lowerNumLen1 8 2) := by
  constructor
  · decide
  · decide

/-- C8 counterexample: the claim asserts that `expandEntropy` keys block
`i` and block `i + 256` with distinct counter encodings.  The source
builds the counter with `Buffer.from([i])`, which stores `i` modulo 256:
block 256 is keyed with exactly the same message as block 0 (while block 1
is keyed differently), as the counter-sensitive oracle `ctrHmac` makes
visible on a 8224-byte (257-block) expansion. -/
theorem c8_counterexample :
    blockKeyMsg 256 = blockKeyMsg 0 ∧
      (expandBlocks ctrHmac zeroSeed 8224).getD 256 [] =
        (expandBlocks ctrHmac zeroSeed 8224).getD 0 [] ∧
      (expandBlocks ctrHmac zeroSeed 8224).getD 1 [] ≠
        (expandBlocks ctrHmac zeroSeed 8224).getD 0 [] := by
  refine ⟨by decide, by decide, by decide⟩

/-- C8 amended: `expandEntropy` encodes the block counter as the single
byte `i % 256`, so for byte counts requiring more than 256 HMAC blocks the
behaviour is silent aliasing: any two blocks whose indices are congruent
modulo 256 are keyed with the same counter message and are therefore
identical — block `i + 256` equals block `i`, rather than being kept
distinct by a wider counter encoding. -/
theorem c8_amended_counter_wraps (hmac : List Nat → List Nat → List Nat)
    (entropy : List Nat) (byteCount i j : Nat)
    (hi : i < (byteCount + 31) / 32) (hj : j < (byteCount + 31) / 32)
    (hmod : i % 256 = j % 256) :
    (expandBlocks hmac entropy byteCount).getD i [] =
      (expandBlocks hmac entropy byteCount).getD j [] := by
  unfold expandBlocks
  rw [List.getD_eq_getElem _ _ (by simpa using hi),
    List.getD_eq_getElem _ _ (by simpa using hj)]
  simp only [List.getElem_map, List.getElem_range]
  unfold blockKeyMsg
  rw [hmod]

/-- Witness for C8 amended, at blocks 0 and 256 of a 257-block expansion. -/
theorem c8_amended_witness :
    (0 < (8224 + 31) / 32 ∧ 256 < (8224 + 31) / 32 ∧ 0 % 256 = 256 % 256) ∧
      (expandBlocks ctrHmac zeroSeed 8224).getD 0 [] =
        (expandBlocks ctrHmac zeroSeed 8224).getD 256 [] :=
  ⟨⟨by decide, by decide, by decide⟩,
    c8_amended_counter_wraps ctrHmac zeroSeed 8224 0 256 (by decide) (by decide)
      (by decide)⟩

/-- C9 counterexample: the claim says every requested length below 1 —
including 0 — is clamped to a 1-character password.  But the source
computes `settings.length || 16`, in which `0` is falsy: a requested
length of `0` produces the 16-character default, not a 1-character
password, as evaluation at the zero oracle shows. -/
theorem c9_counterexample :
    lowerOnlyLen0.length = 0 ∧
      effectiveLength lowerOnlyLen0.length = 16 ∧
      generatePassword zeroHmac zeroSeed lowerOnlyLen0 64 4 =
        some (List.replicate 16 97) ∧
      (List.replicate 16 (97 : Nat)).length ≠ 1 := by
  refine ⟨rfl, by decide, by decide, by decide⟩

/-- C9 amended: the password length actually used by `generatePassword`
is `effectiveLength settings.length`; every returned password has that
many characters.  Lengths above 2048 clamp to 2048; nonzero lengths below
1 clamp to 1; lengths already in `[1, 2048]` are used unchanged (so
`length = 1` gives a single character); but the requested length `0` is
falsy in `settings.length || 16` and falls back to the default 16 instead
of clamping to 1. -/
theorem c9_amended_length_clamping (hmac : List Nat → List Nat → List Nat)
    (entropy : List Nat) (s : Settings) (byteFuel attemptFuel : Nat)
    (pw : List Nat)
    (hpw : generatePassword hmac entropy s byteFuel attemptFuel = some pw) :
    pw.length = effectiveLength s.length ∧
      (2048 < s.length → effectiveLength s.length = 2048) ∧
      (s.length < 1 ∧ s.length ≠ 0 → effectiveLength s.length = 1) ∧
      (s.length = 0 → effectiveLength s.length = 16) ∧
      (1 ≤ s.length → s.length ≤ 2048 → effectiveLength s.length = s.length.toNat) := by
  refine ⟨?_, fun h => effectiveLength_big _ h,
    fun h => effectiveLength_neg _ h.1 h.2,
    fun h => by rw [h]; exact effectiveLength_zero,
    fun h1 h2 => effectiveLength_of_range _ h1 h2⟩
  by_cases hne : fullAlphabet s = []
  · rw [generatePassword, buildCharacterSets, if_pos hne] at hpw
    simp at hpw
  · rw [generatePassword, buildCharacterSets, if_neg hne] at hpw
    dsimp only at hpw
    obtain ⟨⟨q, hq⟩, -⟩ := genLoop_some _ _ _ _ _ _ _ _ hpw
    exact sampleChars_length _ _ _ _ _ _ _ hq

/-- Witness for C9 amended at the length-0 settings. -/
theorem c9_amended_witness :
    generatePassword zeroHmac zeroSeed lowerOnlyLen0 64 4 =
        some (List.replicate 16 97) ∧
      ((List.replicate 16 (97 : Nat)).length = effectiveLength lowerOnlyLen0.length ∧
        (2048 < lowerOnlyLen0.length → effectiveLength lowerOnlyLen0.length = 2048) ∧
        (lowerOnlyLen0.length < 1 ∧ lowerOnlyLen0.length ≠ 0 →
          effectiveLength lowerOnlyLen0.length = 1) ∧
        (lowerOnlyLen0.length = 0 → effectiveLength lowerOnlyLen0.length = 16) ∧
        (1 ≤ lowerOnlyLen0.length → lowerOnlyLen0.length ≤ 2048 →
          effectiveLength lowerOnlyLen0.length = lowerOnlyLen0.length.toNat)) :=
  ⟨by decide,
    c9_amended_length_clamping zeroHmac zeroSeed lowerOnlyLen0 64 4
      (List.replicate 16 97) (by decide)⟩
